import Mathlib

/-!
# Verification of the chatroom hub (Go sources under src/)

Shallow embedding of the chatroom server:
* the session registry (`getCurrentUser`, `logoutHandler` from the main server file),
* the directory service (`Register`, `Login` from the redis-proxy, plus the HTTP
  `registerHandler` that calls `Register` over gRPC),
* the websocket read loop (`websocketHandler`'s message loop), and
* the broadcast dispatcher (`broadcastMessages`) as a labelled transition system
  over a hub state holding the `clients` map and the FIFO `broadcast` queue.

Go maps are embedded as association lists with unique keys maintained by the
operations; `time.Time` is embedded as a `Nat` timestamp; fallible remote calls
(Redis, gRPC) take explicit error-injection flags.  The dispatcher's body for
one event (serialize, then under `mu` write to every client, closing and
deleting the ones whose write fails) runs under the single global mutex in the
source, so it is embedded as one atomic step of the transition system.
-/

namespace Chatroom

/-! ## Data model -/

/-- The wire message struct (`Message` in the source): fields `Type`,
`Username`, `Content`. -/
structure Message where
  type : String
  username : String
  content : String
deriving DecidableEq, Repr

/-- A session record (`Session` in the source): owner and absolute expiry. -/
structure Session where
  username : String
  expiresAt : Nat
deriving DecidableEq, Repr

/-- The 24-hour TTL (`24 * time.Hour`), in seconds. -/
def sessionTTL : Nat := 24 * 60 * 60

/-! ## Session registry -/

/-- Lookup in the `sessions` map (Go map read `sessions[cookie.Value]`). -/
def lookupSession : List (String × Session) → String → Option Session
  | [], _ => none
  | (k, v) :: rest, tok => if k = tok then some v else lookupSession rest tok

/-- Go map write `sessions[k] = v`: replaces the binding if present, else adds it. -/
def insertSession : List (String × Session) → String → Session → List (String × Session)
  | [], tok, v => [(tok, v)]
  | (k, v') :: rest, tok, v =>
      if k = tok then (tok, v) :: rest else (k, v') :: insertSession rest tok v

/-- Go map `delete(sessions, k)`. -/
def deleteSession (m : List (String × Session)) (tok : String) : List (String × Session) :=
  m.filter (fun p => p.1 != tok)

/-- `getCurrentUser` from the source: reads the `session_id` cookie (embedded as
`Option String`), looks the token up, rejects when absent or when
`time.Now().After(session.ExpiresAt)` (strictly past expiry), otherwise slides
the expiry to `now + 24h` and returns the username.  Returns the (possibly
updated) session map together with the result. -/
def getCurrentUser (now : Nat) (sessions : List (String × Session)) (cookie : Option String) :
    List (String × Session) × Option String :=
  match cookie with
  | none => (sessions, none)
  | some tok =>
    match lookupSession sessions tok with
    | none => (sessions, none)
    | some sess =>
        if now > sess.expiresAt then (sessions, none)
        else (insertSession sessions tok ⟨sess.username, now + sessionTTL⟩, some sess.username)

/-- Result of the logout endpoint: new session map, HTTP status, and whether the
`session_id` cookie was overwritten with an expired one. -/
structure LogoutResult where
  sessions : List (String × Session)
  status : Nat
  cookieCleared : Bool
deriving DecidableEq, Repr

/-- `logoutHandler` from the source: if a `session_id` cookie is present, delete
its token from the session map; in every case expire the cookie and answer 200. -/
def logoutHandler (sessions : List (String × Session)) (cookie : Option String) : LogoutResult :=
  match cookie with
  | some tok => ⟨deleteSession sessions tok, 200, true⟩
  | none => ⟨sessions, 200, true⟩

/-- Repeated `getCurrentUser` calls on one token at the given sequence of times,
threading the session map; returns the final map and the per-call results. -/
def validateRun (sessions : List (String × Session)) (tok : String) :
    List Nat → List (String × Session) × List (Option String)
  | [] => (sessions, [])
  | t :: ts =>
      let r := getCurrentUser t sessions (some tok)
      let rest := validateRun r.1 tok ts
      (rest.1, r.2 :: rest.2)

/-- Each call in the list happens no later than the expiry current at that call
(the previous call's time plus the TTL). -/
def withinTTL : Nat → List Nat → Bool
  | _, [] => true
  | e, t :: ts => decide (t ≤ e) && withinTTL (t + sessionTTL) ts

/-! ## Directory service: the redis-proxy `Register`/`Login` and the HTTP
`registerHandler` that calls `Register` over gRPC.

The Redis keyspace is an association list from key to stored password; remote
failures of the `Exists`/`Set`/`Get` calls are injected through explicit Boolean
flags.  A gRPC call whose server handler returns a non-nil Go error is seen by
the HTTP client as a failed call; that is the final `Bool` in the result. -/

/-- The `RegisterResponse` / `LoginResponse` protobuf payload. -/
structure RegisterResponse where
  success : Bool
  message : String
deriving DecidableEq, Repr

/-- Redis key for a user record: `"user:" + username`. -/
def userKey (username : String) : String := "user:" ++ username

/-- `rdb.Get` / `rdb.Exists` lookup over the embedded keyspace. -/
def storeLookup : List (String × String) → String → Option String
  | [], _ => none
  | (k, v) :: rest, key => if k = key then some v else storeLookup rest key

/-- `rdb.Set`: replaces the binding if the key is present, else adds it. -/
def storeSet : List (String × String) → String → String → List (String × String)
  | [], key, v => [(key, v)]
  | (k, v') :: rest, key, v =>
      if k = key then (key, v) :: rest else (k, v') :: storeSet rest key v

/-- `Register` from the redis-proxy: check `Exists(user:username)`; a Redis
error aborts with a failed call; an existing key answers conflict with no
write; otherwise `Set` the password (a Redis error on the `Set` also aborts
with a failed call).  Result: new keyspace, response payload, and whether the
gRPC call returned a non-nil error. -/
def Register (existsErr setErr : Bool) (store : List (String × String))
    (username password : String) :
    List (String × String) × RegisterResponse × Bool :=
  if existsErr then (store, ⟨false, "Redis 错误"⟩, true)
  else if (storeLookup store (userKey username)).isSome then
    (store, ⟨false, "用户名已存在"⟩, false)
  else if setErr then (store, ⟨false, "注册失败"⟩, true)
  else (storeSet store (userKey username) password, ⟨true, "注册成功"⟩, false)

/-- `Login` from the redis-proxy: `Get` the stored password and compare; never
writes to the keyspace (the result carries no keyspace at all). -/
def Login (getErr : Bool) (store : List (String × String)) (username password : String) :
    RegisterResponse × Bool :=
  if getErr then (⟨false, "Redis 错误"⟩, true)
  else
    match storeLookup store (userKey username) with
    | none => (⟨false, "用户名不存在"⟩, false)
    | some stored =>
        if stored = password then (⟨true, "登录成功"⟩, false)
        else (⟨false, "密码错误"⟩, false)

/-- Result of the HTTP register endpoint: status code, whether the gRPC call to
the credential store was made, and the resulting keyspace. -/
structure HandlerResult where
  status : Nat
  storeCalled : Bool
  store : List (String × String)
deriving DecidableEq, Repr

/-- `registerHandler` from the main server: a body that fails to decode gets
400; an empty username, empty password, or password shorter than 6 gets 400;
otherwise the gRPC `Register` is called — a failed call gets 500, a
`success = false` response gets 409, and a success response gets the default
200. -/
def registerHandler (existsErr setErr : Bool) (store : List (String × String))
    (body : Option (String × String)) : HandlerResult :=
  match body with
  | none => ⟨400, false, store⟩
  | some (u, pw) =>
      if u = "" ∨ pw = "" ∨ pw.length < 6 then ⟨400, false, store⟩
      else
        let r := Register existsErr setErr store u pw
        if r.2.2 then ⟨500, true, r.1⟩
        else if r.2.1.success then ⟨200, true, r.1⟩
        else ⟨409, true, r.1⟩

/-! ## Websocket read loop

One iteration of `websocketHandler`'s loop reads a frame; a read error breaks
the loop (then the handler deletes the connection and enqueues `userLeft`); a
frame whose payload fails `json.Unmarshal` is skipped with `continue`; a parsed
payload gets its `Username` overwritten with the session's username and is
enqueued on `broadcast`.  A frame is embedded as its parse result. -/

/-- An inbound item on a websocket connection: a frame carrying the result of
`json.Unmarshal` on its payload, or a read error. -/
inductive Inbound where
  | frame (parsed : Option Message)
  | readError
deriving DecidableEq, Repr

/-- The `userJoined` presence event enqueued by `websocketHandler` after
registering a connection (`Content` left at its zero value). -/
def joinedMsg (u : String) : Message := ⟨"userJoined", u, ""⟩

/-- The `userLeft` presence event enqueued after the read loop ends. -/
def leftMsg (u : String) : Message := ⟨"userLeft", u, ""⟩

/-- The read loop of `websocketHandler` for a connection authenticated as `u`:
returns the messages it enqueues on `broadcast`, in order (including the final
`userLeft` when a read error ends the loop), and whether the loop terminated
(removing the connection from `clients`).  An exhausted input list models a
connection still blocked in `ReadMessage`. -/
def websocketReadLoop (u : String) : List Inbound → List Message × Bool
  | [] => ([], false)
  | Inbound.readError :: _ => ([leftMsg u], true)
  | Inbound.frame none :: rest => websocketReadLoop u rest
  | Inbound.frame (some m) :: rest =>
      let r := websocketReadLoop u rest
      ({ m with username := u } :: r.1, r.2)

/-! ## Connection registry and broadcast dispatcher

The hub is a labelled transition system.  State: the `clients` map (association
list from connection handle to username with distinct handles), the FIFO
`broadcast` queue, and ghost logs — the full enqueue history, the dispatch
history (each event with the snapshot of registered handles at its dispatch),
the delivery-attempt history (dispatch index, handle, event), and the closed
handles.  `broadcastMessages`'s per-event body is the `broadcastStep` step. -/

/-- A connection handle (`*websocket.Conn`), identified by a number. -/
abbrev Conn := Nat

/-- Hub state: the `clients` map and `broadcast` queue of the source, plus
ghost history logs used to state the delivery guarantees. -/
structure HubState where
  clients : List (Conn × String)
  queue : List Message
  enqueuedLog : List Message
  dispatchedLog : List (Message × List Conn)
  deliveredLog : List (Nat × Conn × Message)
  closedLog : List Conn
deriving Repr

/-- The empty initial hub. -/
def hubInit : HubState := ⟨[], [], [], [], [], []⟩

/-- `websocketHandler` registering a connection: `clients[conn] = username`
under the lock, then enqueue `userJoined`. -/
def hubJoin (s : HubState) (c : Conn) (u : String) : HubState :=
  { s with clients := s.clients ++ [(c, u)],
           queue := s.queue ++ [joinedMsg u],
           enqueuedLog := s.enqueuedLog ++ [joinedMsg u] }

/-- `websocketHandler` after its read loop breaks: `delete(clients, conn)`
under the lock, then enqueue `userLeft` with the join-time username. -/
def hubLeave (s : HubState) (c : Conn) (u : String) : HubState :=
  { s with clients := s.clients.filter (fun p => p.1 != c),
           queue := s.queue ++ [leftMsg u],
           enqueuedLog := s.enqueuedLog ++ [leftMsg u] }

/-- The read loop enqueueing one (already attributed) message on `broadcast`;
the `clients` map is not touched. -/
def hubSend (s : HubState) (m : Message) : HubState :=
  { s with queue := s.queue ++ [m], enqueuedLog := s.enqueuedLog ++ [m] }

/-- The delivery attempts of one dispatched event: every currently registered
connection is attempted exactly once, tagged with the dispatch index. -/
def dispatchAttempts (i : Nat) (clients : List (Conn × String)) (m : Message) :
    List (Nat × Conn × Message) :=
  clients.map (fun p => (i, p.1, m))

/-- One iteration of `broadcastMessages`: dequeue the head event and, under the
lock, attempt the write to every registered connection; a connection whose
write fails (per the `wfail` oracle) is closed and deleted from `clients`.
The dequeued event and the snapshot of registered handles are logged. -/
def broadcastStep (s : HubState) (wfail : Conn → Bool) : HubState :=
  match s.queue with
  | [] => s
  | m :: rest =>
      { clients := s.clients.filter (fun p => !(wfail p.1)),
        queue := rest,
        enqueuedLog := s.enqueuedLog,
        dispatchedLog := s.dispatchedLog ++ [(m, s.clients.map Prod.fst)],
        deliveredLog := s.deliveredLog ++ dispatchAttempts s.dispatchedLog.length s.clients m,
        closedLog := s.closedLog ++ (s.clients.filter (fun p => wfail p.1)).map Prod.fst }

/-- The visible operations on the hub. -/
inductive HubAction where
  | join (c : Conn) (u : String)
  | leave (c : Conn) (u : String)
  | send (m : Message)
  | dispatch (wfail : Conn → Bool)

/-- Labelled step relation of the hub.  A `join` uses a fresh handle (Go
allocates a new `*websocket.Conn` per upgrade); a `dispatch` fires only when
the channel has an event. -/
inductive HubStep : HubState → HubAction → HubState → Prop where
  | join {s : HubState} {c : Conn} {u : String} :
      c ∉ s.clients.map Prod.fst → HubStep s (HubAction.join c u) (hubJoin s c u)
  | leave {s : HubState} {c : Conn} {u : String} :
      HubStep s (HubAction.leave c u) (hubLeave s c u)
  | send {s : HubState} {m : Message} :
      HubStep s (HubAction.send m) (hubSend s m)
  | dispatch {s : HubState} {wfail : Conn → Bool} :
      s.queue ≠ [] → HubStep s (HubAction.dispatch wfail) (broadcastStep s wfail)

/-- Finite executions of the hub. -/
inductive HubTrace : HubState → List HubAction → HubState → Prop where
  | nil {s : HubState} : HubTrace s [] s
  | cons {s s' s'' : HubState} {a : HubAction} {as : List HubAction} :
      HubStep s a s' → HubTrace s' as s'' → HubTrace s (a :: as) s''

/-- The delivery attempts generated by a dispatch history, blocks in dispatch
order, indices counted from `i`. -/
def deliveriesFrom (i : Nat) : List (Message × List Conn) → List (Nat × Conn × Message)
  | [] => []
  | p :: rest => p.2.map (fun c => (i, c, p.1)) ++ deliveriesFrom (i + 1) rest

/-- The (dispatch index, message) pairs a given connection observes, in log
order. -/
def observedAt (c : Conn) : List (Nat × Conn × Message) → List (Nat × Message)
  | [] => []
  | e :: rest =>
      if e.2.1 = c then (e.1, e.2.2) :: observedAt c rest else observedAt c rest

/-- Hub invariant: the delivery log is exactly the block-by-block image of the
dispatch log; the dispatch history followed by the pending queue is the enqueue
history; registered handles are distinct; logged snapshots are duplicate-free. -/
def HubInv (s : HubState) : Prop :=
  s.deliveredLog = deliveriesFrom 0 s.dispatchedLog ∧
  s.dispatchedLog.map Prod.fst ++ s.queue = s.enqueuedLog ∧
  (s.clients.map Prod.fst).Nodup ∧
  ∀ p ∈ s.dispatchedLog, (p.2).Nodup

/-! ## Session registry theorems (C3, C7, C8) -/

theorem lookupSession_insertSession_self (m : List (String × Session)) (tok : String)
    (v : Session) : lookupSession (insertSession m tok v) tok = some v := by
  induction m with
  | nil => simp [insertSession, lookupSession]
  | cons p rest ih =>
      by_cases h : p.1 = tok
      · simp [insertSession, lookupSession, h]
      · simp [insertSession, lookupSession, h, ih]

theorem lookupSession_deleteSession_self (m : List (String × Session)) (tok : String) :
    lookupSession (deleteSession m tok) tok = none := by
  induction m with
  | nil => rfl
  | cons p rest ih =>
      by_cases h : p.1 = tok
      · simpa [deleteSession, h] using ih
      · simpa [deleteSession, lookupSession, h] using ih

theorem deleteSession_idem (m : List (String × Session)) (tok : String) :
    deleteSession (deleteSession m tok) tok = deleteSession m tok := by
  simp [deleteSession, List.filter_filter]

theorem deleteSession_of_absent (m : List (String × Session)) (tok : String)
    (h : lookupSession m tok = none) : deleteSession m tok = m := by
  induction m with
  | nil => rfl
  | cons p rest ih =>
      by_cases hp : p.1 = tok
      · simp [lookupSession, hp] at h
      · simp [lookupSession, hp] at h
        simp [deleteSession] at ih ⊢
        exact ⟨hp, ih h⟩

theorem validateRun_all_valid (tok : String) (u : String) :
    ∀ (ts : List Nat) (m : List (String × Session)) (e : Nat),
      lookupSession m tok = some ⟨u, e⟩ → withinTTL e ts = true →
      (validateRun m tok ts).2 = ts.map (fun _ => some u) := by
  intro ts
  induction ts with
  | nil => intro m e _ _; rfl
  | cons t ts ih =>
      intro m e hl hw
      simp only [withinTTL, Bool.and_eq_true, decide_eq_true_eq] at hw
      have hstep : getCurrentUser t m (some tok) =
          (insertSession m tok ⟨u, t + sessionTTL⟩, some u) := by
        simp [getCurrentUser, hl, Nat.not_lt.mpr hw.1]
      have hl' : lookupSession (insertSession m tok ⟨u, t + sessionTTL⟩) tok =
          some ⟨u, t + sessionTTL⟩ := lookupSession_insertSession_self _ _ _
      simp [validateRun, hstep, ih _ _ hl' hw.2]

/-- C3: a token present with `now ≤ expiresAt` validates to its owner and gets
its expiry slid to `now + TTL`; an absent token and a strictly expired token
validate to `none`; and a run of validations, each within the TTL window left by
the previous one, always answers the same username and never `none`. -/
theorem c3_validate_sliding (now : Nat) (m : List (String × Session)) (tok u : String) (e : Nat)
    (hl : lookupSession m tok = some ⟨u, e⟩) :
    (now ≤ e →
        getCurrentUser now m (some tok) =
          (insertSession m tok ⟨u, now + sessionTTL⟩, some u)) ∧
    (e < now → getCurrentUser now m (some tok) = (m, none)) ∧
    (∀ m' : List (String × Session), lookupSession m' tok = none →
        getCurrentUser now m' (some tok) = (m', none)) ∧
    (∀ ts : List Nat, withinTTL e ts = true →
        (validateRun m tok ts).2 = ts.map (fun _ => some u)) := by
  refine ⟨?_, ?_, ?_, ?_⟩
  · intro h; simp [getCurrentUser, hl, Nat.not_lt.mpr h]
  · intro h; simp [getCurrentUser, hl, h]
  · intro m' h; simp [getCurrentUser, h]
  · intro ts hts; exact validateRun_all_valid tok u ts m e hl hts

/-- Witness for C3 at a concrete map and call times. -/
theorem c3_validate_sliding_witness :
    (5 ≤ 100 →
        getCurrentUser 5 [("tk", ⟨"alice", 100⟩)] (some "tk") =
          (insertSession [("tk", ⟨"alice", 100⟩)] "tk" ⟨"alice", 5 + sessionTTL⟩, some "alice")) ∧
    (100 < 5 → getCurrentUser 5 [("tk", ⟨"alice", 100⟩)] (some "tk") =
        ([("tk", ⟨"alice", 100⟩)], none)) ∧
    (∀ m' : List (String × Session), lookupSession m' "tk" = none →
        getCurrentUser 5 m' (some "tk") = (m', none)) ∧
    (∀ ts : List Nat, withinTTL 100 ts = true →
        (validateRun [("tk", ⟨"alice", 100⟩)] "tk" ts).2 = ts.map (fun _ => some "alice")) :=
  c3_validate_sliding 5 [("tk", ⟨"alice", 100⟩)] "tk" "alice" 100 (by decide)

/-- C7 counterexample: validating a token whose expiry is past returns absent
but does NOT remove the entry — after the call the entry is still in the map. -/
theorem c7_expired_entry_persists :
    getCurrentUser 10 [("tk", ⟨"alice", 5⟩)] (some "tk") = ([("tk", ⟨"alice", 5⟩)], none) ∧
    lookupSession (getCurrentUser 10 [("tk", ⟨"alice", 5⟩)] (some "tk")).1 "tk" =
      some ⟨"alice", 5⟩ := by
  constructor <;> decide

/-- C7 amended: a session entry is removed from the token map only explicitly,
by logout; a lookup that finds `now > expiresAt` returns absent but leaves the
session map unchanged — the expired entry persists until logout deletes it. -/
theorem c7_lazy_expiry_amended (now : Nat) (m : List (String × Session)) (tok u : String)
    (e : Nat) (hl : lookupSession m tok = some ⟨u, e⟩) (hexp : e < now) :
    getCurrentUser now m (some tok) = (m, none) ∧
    lookupSession (getCurrentUser now m (some tok)).1 tok = some ⟨u, e⟩ ∧
    lookupSession (logoutHandler m (some tok)).sessions tok = none := by
  have h1 : getCurrentUser now m (some tok) = (m, none) := by
    simp [getCurrentUser, hl, hexp]
  refine ⟨h1, ?_, ?_⟩
  · rw [h1]; exact hl
  · exact lookupSession_deleteSession_self m tok

/-- Witness for the amended C7 at a concrete expired session. -/
theorem c7_lazy_expiry_amended_witness :
    getCurrentUser 10 [("tk", ⟨"bob", 5⟩)] (some "tk") = ([("tk", ⟨"bob", 5⟩)], none) ∧
    lookupSession (getCurrentUser 10 [("tk", ⟨"bob", 5⟩)] (some "tk")).1 "tk" =
      some ⟨"bob", 5⟩ ∧
    lookupSession (logoutHandler [("tk", ⟨"bob", 5⟩)] (some "tk")).sessions "tk" = none :=
  c7_lazy_expiry_amended 10 [("tk", ⟨"bob", 5⟩)] "tk" "bob" 5 (by decide) (by decide)

/-- C8: logout always answers 200 and expires the cookie (with or without a
presented cookie); with a cookie it removes that token so a subsequent
validation returns absent; deleting is idempotent; and revoking an absent token
leaves the map unchanged (a no-op, not an error). -/
theorem c8_logout_revoke (m : List (String × Session)) (cookie : Option String) :
    (logoutHandler m cookie).status = 200 ∧
    (logoutHandler m cookie).cookieCleared = true ∧
    (∀ tok, cookie = some tok →
        lookupSession (logoutHandler m cookie).sessions tok = none ∧
        (∀ now, getCurrentUser now (logoutHandler m cookie).sessions (some tok) =
            ((logoutHandler m cookie).sessions, none)) ∧
        logoutHandler (logoutHandler m cookie).sessions cookie = logoutHandler m cookie ∧
        (lookupSession m tok = none → (logoutHandler m cookie).sessions = m)) := by
  refine ⟨?_, ?_, ?_⟩
  · cases cookie <;> rfl
  · cases cookie <;> rfl
  · rintro tok rfl
    have habs : lookupSession (deleteSession m tok) tok = none :=
      lookupSession_deleteSession_self m tok
    refine ⟨habs, ?_, ?_, ?_⟩
    · intro now; simp [logoutHandler, getCurrentUser, habs]
    · simp [logoutHandler, deleteSession_idem]
    · intro h; simp [logoutHandler, deleteSession_of_absent m tok h]

/-- Witness for C8 at a concrete map and cookie. -/
theorem c8_logout_revoke_witness :
    (logoutHandler [("tk", ⟨"alice", 9⟩)] (some "tk")).status = 200 ∧
    (logoutHandler [("tk", ⟨"alice", 9⟩)] (some "tk")).cookieCleared = true ∧
    (∀ tok, (some "tk" : Option String) = some tok →
        lookupSession (logoutHandler [("tk", ⟨"alice", 9⟩)] (some "tk")).sessions tok = none ∧
        (∀ now, getCurrentUser now (logoutHandler [("tk", ⟨"alice", 9⟩)] (some "tk")).sessions
            (some tok) =
            ((logoutHandler [("tk", ⟨"alice", 9⟩)] (some "tk")).sessions, none)) ∧
        logoutHandler (logoutHandler [("tk", ⟨"alice", 9⟩)] (some "tk")).sessions (some "tk") =
          logoutHandler [("tk", ⟨"alice", 9⟩)] (some "tk") ∧
        (lookupSession [("tk", ⟨"alice", 9⟩)] tok = none →
            (logoutHandler [("tk", ⟨"alice", 9⟩)] (some "tk")).sessions =
              [("tk", ⟨"alice", 9⟩)])) :=
  c8_logout_revoke [("tk", ⟨"alice", 9⟩)] (some "tk")

/-! ## Directory service theorems (C5, C6) -/

theorem storeLookup_storeSet (st : List (String × String)) (k k' v : String) :
    storeLookup (storeSet st k v) k' = if k' = k then some v else storeLookup st k' := by
  induction st with
  | nil =>
      by_cases h : k = k'
      · simp [storeSet, storeLookup, h]
      · have h1 : ¬ k' = k := fun hh => h hh.symm
        simp [storeSet, storeLookup, h, h1]
  | cons p rest ih =>
      by_cases hp : p.1 = k
      · by_cases h : k = k'
        · simp [storeSet, storeLookup, hp, h]
        · have h1 : ¬ k' = k := fun hh => h hh.symm
          simp [storeSet, storeLookup, hp, h, h1]
      · by_cases h : p.1 = k'
        · have h1 : ¬ k' = k := fun hh => hp (h.trans hh)
          simp [storeSet, storeLookup, hp, ih, h, h1]
        · simp [storeSet, storeLookup, hp, ih, h]

/-- C5: `Register` is check-then-set.  A failing existence check answers a
failed call with the keyspace untouched; an existing key answers conflict
(success = false, nil error) with the keyspace untouched; an absent key with a
failing `Set` answers a failed call; an absent key otherwise writes exactly the
new record; and every user record already in the keyspace survives any
`Register` call with its stored password unchanged (`Login` by construction
never writes). -/
theorem c5_register_check_then_set (existsErr setErr : Bool)
    (store : List (String × String)) (username password : String) :
    (existsErr = true →
        Register existsErr setErr store username password =
          (store, ⟨false, "Redis 错误"⟩, true)) ∧
    (existsErr = false → ∀ p, storeLookup store (userKey username) = some p →
        Register existsErr setErr store username password =
          (store, ⟨false, "用户名已存在"⟩, false)) ∧
    (existsErr = false → setErr = true → storeLookup store (userKey username) = none →
        Register existsErr setErr store username password =
          (store, ⟨false, "注册失败"⟩, true)) ∧
    (existsErr = false → setErr = false → storeLookup store (userKey username) = none →
        Register existsErr setErr store username password =
          (storeSet store (userKey username) password, ⟨true, "注册成功"⟩, false)) ∧
    (∀ u' p', storeLookup store (userKey u') = some p' →
        storeLookup (Register existsErr setErr store username password).1 (userKey u') =
          some p') := by
  refine ⟨?_, ?_, ?_, ?_, ?_⟩
  · rintro rfl; simp [Register]
  · rintro rfl p hp; simp [Register, hp]
  · rintro rfl rfl hnone; simp [Register, hnone]
  · rintro rfl rfl hnone; simp [Register, hnone]
  · intro u' p' hp'
    by_cases he : existsErr
    · simp [Register, he, hp']
    · by_cases hk : (storeLookup store (userKey username)).isSome
      · simp [Register, he, hk, hp']
      · by_cases hs : setErr
        · simp [Register, he, hk, hs, hp']
        · have hnone : storeLookup store (userKey username) = none :=
            Option.not_isSome_iff_eq_none.mp hk
          simp only [Register, he, hk, hs, if_false, Bool.false_eq_true, if_neg,
            Option.isSome_none]
          rw [storeLookup_storeSet]
          by_cases hkey : userKey u' = userKey username
          · rw [hkey] at hp'; rw [hp'] at hnone; exact absurd hnone (by simp)
          · simp [hkey, hp']

/-- Witness for C5 at a concrete keyspace. -/
theorem c5_register_check_then_set_witness :
    ((false : Bool) = true →
        Register false false [("user:bob", "hunter77")] "alice" "secret1" =
          ([("user:bob", "hunter77")], ⟨false, "Redis 错误"⟩, true)) ∧
    ((false : Bool) = false → ∀ p,
        storeLookup [("user:bob", "hunter77")] (userKey "alice") = some p →
        Register false false [("user:bob", "hunter77")] "alice" "secret1" =
          ([("user:bob", "hunter77")], ⟨false, "用户名已存在"⟩, false)) ∧
    ((false : Bool) = false → (false : Bool) = true →
        storeLookup [("user:bob", "hunter77")] (userKey "alice") = none →
        Register false false [("user:bob", "hunter77")] "alice" "secret1" =
          ([("user:bob", "hunter77")], ⟨false, "注册失败"⟩, true)) ∧
    ((false : Bool) = false → (false : Bool) = false →
        storeLookup [("user:bob", "hunter77")] (userKey "alice") = none →
        Register false false [("user:bob", "hunter77")] "alice" "secret1" =
          (storeSet [("user:bob", "hunter77")] (userKey "alice") "secret1",
            ⟨true, "注册成功"⟩, false)) ∧
    (∀ u' p', storeLookup [("user:bob", "hunter77")] (userKey u') = some p' →
        storeLookup
          (Register false false [("user:bob", "hunter77")] "alice" "secret1").1
          (userKey u') = some p') :=
  c5_register_check_then_set false false [("user:bob", "hunter77")] "alice" "secret1"

/-- C6: the register endpoint answers 400 with no credential-store call and an
unchanged keyspace exactly when the body fails to decode, the username is
empty, the password is empty, or the password is shorter than 6 characters;
on any other input the store is called and the endpoint answers 500 on a
failed call, 409 on conflict (keyspace untouched), and 200 on success (the
record written). -/
theorem c6_register_handler_status (existsErr setErr : Bool)
    (store : List (String × String)) (body : Option (String × String)) :
    (((registerHandler existsErr setErr store body).status = 400 ∧
        (registerHandler existsErr setErr store body).storeCalled = false ∧
        (registerHandler existsErr setErr store body).store = store) ↔
      (body = none ∨ ∃ u pw, body = some (u, pw) ∧
          (u = "" ∨ pw = "" ∨ pw.length < 6))) ∧
    (∀ u pw, body = some (u, pw) → ¬(u = "" ∨ pw = "" ∨ pw.length < 6) →
        (registerHandler existsErr setErr store body).storeCalled = true ∧
        (existsErr = true →
            (registerHandler existsErr setErr store body).status = 500 ∧
            (registerHandler existsErr setErr store body).store = store) ∧
        (existsErr = false → ∀ p, storeLookup store (userKey u) = some p →
            (registerHandler existsErr setErr store body).status = 409 ∧
            (registerHandler existsErr setErr store body).store = store) ∧
        (existsErr = false → setErr = true → storeLookup store (userKey u) = none →
            (registerHandler existsErr setErr store body).status = 500 ∧
            (registerHandler existsErr setErr store body).store = store) ∧
        (existsErr = false → setErr = false → storeLookup store (userKey u) = none →
            (registerHandler existsErr setErr store body).status = 200 ∧
            (registerHandler existsErr setErr store body).store =
              storeSet store (userKey u) pw)) := by
  constructor
  · constructor
    · intro h
      match body with
      | none => exact Or.inl rfl
      | some (u, pw) =>
          refine Or.inr ⟨u, pw, rfl, ?_⟩
          by_contra hv
          simp only [registerHandler, if_neg hv] at h
          set r := Register existsErr setErr store u pw with hr
          by_cases h2 : r.2.2 <;> by_cases h1 : r.2.1.success <;>
            simp [h2, h1] at h
    · rintro (rfl | ⟨u, pw, rfl, hv⟩)
      · exact ⟨rfl, rfl, rfl⟩
      · simp [registerHandler, hv]
  · rintro u pw rfl hv
    simp only [registerHandler, if_neg hv]
    refine ⟨?_, ?_, ?_, ?_, ?_⟩
    · by_cases h2 : (Register existsErr setErr store u pw).2.2 <;>
        by_cases h1 : (Register existsErr setErr store u pw).2.1.success <;>
          simp [h2, h1]
    · rintro rfl; simp [Register]
    · rintro rfl p hp; simp [Register, hp]
    · rintro rfl rfl hnone; simp [Register, hnone]
    · rintro rfl rfl hnone; simp [Register, hnone]

/-- Witness for C6 at a concrete valid body over an empty keyspace. -/
theorem c6_register_handler_status_witness :
    (((registerHandler false false [] (some ("alice", "secret1"))).status = 400 ∧
        (registerHandler false false [] (some ("alice", "secret1"))).storeCalled = false ∧
        (registerHandler false false [] (some ("alice", "secret1"))).store = []) ↔
      ((some ("alice", "secret1") : Option (String × String)) = none ∨
        ∃ u pw, (some ("alice", "secret1") : Option (String × String)) = some (u, pw) ∧
          (u = "" ∨ pw = "" ∨ pw.length < 6))) ∧
    (∀ u pw, (some ("alice", "secret1") : Option (String × String)) = some (u, pw) →
        ¬(u = "" ∨ pw = "" ∨ pw.length < 6) →
        (registerHandler false false [] (some ("alice", "secret1"))).storeCalled = true ∧
        ((false : Bool) = true →
            (registerHandler false false [] (some ("alice", "secret1"))).status = 500 ∧
            (registerHandler false false [] (some ("alice", "secret1"))).store = []) ∧
        ((false : Bool) = false → ∀ p, storeLookup [] (userKey u) = some p →
            (registerHandler false false [] (some ("alice", "secret1"))).status = 409 ∧
            (registerHandler false false [] (some ("alice", "secret1"))).store = []) ∧
        ((false : Bool) = false → (false : Bool) = true →
            storeLookup [] (userKey u) = none →
            (registerHandler false false [] (some ("alice", "secret1"))).status = 500 ∧
            (registerHandler false false [] (some ("alice", "secret1"))).store = []) ∧
        ((false : Bool) = false → (false : Bool) = false →
            storeLookup [] (userKey u) = none →
            (registerHandler false false [] (some ("alice", "secret1"))).status = 200 ∧
            (registerHandler false false [] (some ("alice", "secret1"))).store =
              storeSet [] (userKey u) pw)) :=
  c6_register_handler_status false false [] (some ("alice", "secret1"))

/-! ## Websocket read loop theorems (C4, C9, C10) -/

/-- C4: the event enqueued for an accepted frame carries the session's
username, whatever the client-supplied `username` field said — two parsed
payloads that differ only in that field produce identical read-loop behaviour,
and the enqueued event is the payload with its username overwritten. -/
theorem c4_username_not_client_controlled (u : String) (m₁ m₂ : Message)
    (rest : List Inbound) (ht : m₁.type = m₂.type) (hc : m₁.content = m₂.content) :
    websocketReadLoop u (Inbound.frame (some m₁) :: rest) =
      websocketReadLoop u (Inbound.frame (some m₂) :: rest) ∧
    (websocketReadLoop u (Inbound.frame (some m₁) :: rest)).1.head? =
      some ⟨m₁.type, u, m₁.content⟩ := by
  obtain ⟨t₁, w₁, c₁⟩ := m₁
  obtain ⟨t₂, w₂, c₂⟩ := m₂
  cases ht
  cases hc
  exact ⟨rfl, rfl⟩

/-- Witness for C4: two payloads claiming usernames `mallory` and `bob`. -/
theorem c4_username_not_client_controlled_witness :
    websocketReadLoop "bob" (Inbound.frame (some ⟨"message", "mallory", "hi"⟩) :: []) =
      websocketReadLoop "bob" (Inbound.frame (some ⟨"message", "bob", "hi"⟩) :: []) ∧
    (websocketReadLoop "bob"
        (Inbound.frame (some ⟨"message", "mallory", "hi"⟩) :: [])).1.head? =
      some ⟨"message", "bob", "hi"⟩ :=
  c4_username_not_client_controlled "bob" ⟨"message", "mallory", "hi"⟩
    ⟨"message", "bob", "hi"⟩ [] rfl rfl

/-- C9: the read loop forwards the client-supplied `type` verbatim — a parsed
payload of type `userJoined` or `userLeft` is enqueued with that type,
attributed to the sender's session username; processing it does not end the
loop; enqueueing does not touch the `clients` map; and once dispatched the
event is attempted at every registered connection. -/
theorem c9_client_forged_presence (u ty w ct : String) (rest : List Inbound)
    (_hty : ty = "userJoined" ∨ ty = "userLeft") :
    (websocketReadLoop u (Inbound.frame (some ⟨ty, w, ct⟩) :: rest)).1 =
      Message.mk ty u ct :: (websocketReadLoop u rest).1 ∧
    (websocketReadLoop u (Inbound.frame (some ⟨ty, w, ct⟩) :: rest)).2 =
      (websocketReadLoop u rest).2 ∧
    (∀ st : HubState, (hubSend st (Message.mk ty u ct)).clients = st.clients) ∧
    (∀ (i : Nat) (clients : List (Conn × String)) (c : Conn),
        c ∈ clients.map Prod.fst →
        (i, c, Message.mk ty u ct) ∈ dispatchAttempts i clients (Message.mk ty u ct)) := by
  refine ⟨rfl, rfl, fun st => rfl, ?_⟩
  intro i clients c hc
  rcases List.mem_map.mp hc with ⟨p, hp, hpc⟩
  exact List.mem_map.mpr ⟨p, hp, by rw [hpc]⟩

/-- Witness for C9: a client forging a `userJoined` event. -/
theorem c9_client_forged_presence_witness :
    (websocketReadLoop "bob" (Inbound.frame (some ⟨"userJoined", "carol", ""⟩) :: [])).1 =
      Message.mk "userJoined" "bob" "" :: (websocketReadLoop "bob" []).1 ∧
    (websocketReadLoop "bob" (Inbound.frame (some ⟨"userJoined", "carol", ""⟩) :: [])).2 =
      (websocketReadLoop "bob" []).2 ∧
    (∀ st : HubState, (hubSend st (Message.mk "userJoined" "bob" "")).clients = st.clients) ∧
    (∀ (i : Nat) (clients : List (Conn × String)) (c : Conn),
        c ∈ clients.map Prod.fst →
        (i, c, Message.mk "userJoined" "bob" "") ∈
          dispatchAttempts i clients (Message.mk "userJoined" "bob" "")) :=
  c9_client_forged_presence "bob" "userJoined" "carol" "" [] (Or.inl rfl)

/-- C10: a frame whose payload fails to parse is dropped silently — the loop
behaves as if the frame never arrived (nothing enqueued, loop continues, no
termination); the loop terminates (removing the connection) exactly when a
read error arrives; and on the first read error the enqueued output is the
prior frames' events followed by the `userLeft` event. -/
theorem c10_parse_failure_dropped (u : String) :
    (∀ rest : List Inbound,
        websocketReadLoop u (Inbound.frame none :: rest) = websocketReadLoop u rest) ∧
    (∀ l : List Inbound,
        (websocketReadLoop u l).2 = true ↔ Inbound.readError ∈ l) ∧
    (∀ pre rest : List Inbound, Inbound.readError ∉ pre →
        websocketReadLoop u (pre ++ Inbound.readError :: rest) =
          ((websocketReadLoop u pre).1 ++ [leftMsg u], true)) := by
  refine ⟨fun rest => rfl, ?_, ?_⟩
  · intro l
    induction l with
    | nil => simp [websocketReadLoop]
    | cons x rest ih =>
        match x with
        | Inbound.readError => simp [websocketReadLoop]
        | Inbound.frame none =>
            simpa [websocketReadLoop] using ih
        | Inbound.frame (some m) =>
            simpa [websocketReadLoop] using ih
  · intro pre
    induction pre with
    | nil => intro rest _; rfl
    | cons x pre' ih =>
        intro rest hne
        have hx : x ≠ Inbound.readError := fun h => hne (h ▸ List.mem_cons_self x pre')
        have hpre' : Inbound.readError ∉ pre' := fun h => hne (List.mem_cons_of_mem x h)
        match x with
        | Inbound.readError => exact absurd rfl hx
        | Inbound.frame none =>
            simpa [websocketReadLoop] using ih rest hpre'
        | Inbound.frame (some m) =>
            simp [websocketReadLoop, ih rest hpre']

/-- Witness for C10: conclusion instantiated at a concrete username. -/
theorem c10_parse_failure_dropped_witness :
    (∀ rest : List Inbound,
        websocketReadLoop "bob" (Inbound.frame none :: rest) = websocketReadLoop "bob" rest) ∧
    (∀ l : List Inbound,
        (websocketReadLoop "bob" l).2 = true ↔ Inbound.readError ∈ l) ∧
    (∀ pre rest : List Inbound, Inbound.readError ∉ pre →
        websocketReadLoop "bob" (pre ++ Inbound.readError :: rest) =
          ((websocketReadLoop "bob" pre).1 ++ [leftMsg "bob"], true)) :=
  c10_parse_failure_dropped "bob"

/-! ## Broadcast dispatcher theorems (C1, C2) -/

theorem deliveriesFrom_append_single (m : Message) (cs : List Conn) :
    ∀ (log : List (Message × List Conn)) (i : Nat),
      deliveriesFrom i (log ++ [(m, cs)]) =
        deliveriesFrom i log ++ cs.map (fun c => (i + log.length, c, m)) := by
  intro log
  induction log with
  | nil => intro i; simp [deliveriesFrom]
  | cons p rest ih =>
      intro i
      have hfun : (fun c : Conn => (i + 1 + rest.length, c, m)) =
          (fun c : Conn => (i + (rest.length + 1), c, m)) := by
        funext c
        rw [show i + 1 + rest.length = i + (rest.length + 1) from by omega]
      simp only [List.cons_append, deliveriesFrom, List.append_eq, ih (i + 1),
        List.length_cons, List.append_assoc, hfun]

theorem deliveriesFrom_index_lb :
    ∀ (log : List (Message × List Conn)) (i : Nat) (e : Nat × Conn × Message),
      e ∈ deliveriesFrom i log → i ≤ e.1 := by
  intro log
  induction log with
  | nil => intro i e h; simp [deliveriesFrom] at h
  | cons p rest ih =>
      intro i e h
      simp only [deliveriesFrom, List.mem_append] at h
      rcases h with h | h
      · rcases List.mem_map.mp h with ⟨c, _, rfl⟩
        exact Nat.le_refl i
      · exact Nat.le_of_succ_le (ih (i + 1) e h)

theorem count_dispatchBlock (i : Nat) (m : Message) (c : Conn) :
    ∀ cs : List Conn,
      List.count (i, c, m) (cs.map (fun c' => (i, c', m))) = List.count c cs := by
  intro cs
  induction cs with
  | nil => rfl
  | cons c' cs' ih =>
      simp only [List.map_cons, List.count_cons, ih]
      congr 1
      by_cases h : c = c'
      · simp [h]
      · simp [h, Prod.ext_iff]

theorem count_dispatchBlock_ne (i i' : Nat) (m m' : Message) (c : Conn) (h : i' ≠ i) :
    ∀ cs : List Conn,
      List.count (i', c, m) (cs.map (fun c'' => (i, c'', m'))) = 0 := by
  intro cs
  rw [List.count_eq_zero]
  intro hmem
  rcases List.mem_map.mp hmem with ⟨c'', _, heq⟩
  exact h (congrArg Prod.fst heq).symm

theorem count_deliveriesFrom :
    ∀ (log : List (Message × List Conn)) (i j : Nat) (m : Message) (cs : List Conn) (c : Conn),
      log[j]? = some (m, cs) → (∀ p ∈ log, (p.2).Nodup) →
      List.count (i + j, c, m) (deliveriesFrom i log) = if c ∈ cs then 1 else 0 := by
  intro log
  induction log with
  | nil => intro i j m cs c h _; simp at h
  | cons p rest ih =>
      intro i j m cs c h hnd
      match j with
      | 0 =>
          rw [List.getElem?_cons_zero, Option.some.injEq] at h
          subst h
          simp only [deliveriesFrom, List.count_append, Nat.add_zero]
          rw [count_dispatchBlock]
          have htail : List.count (i, c, m) (deliveriesFrom (i + 1) rest) = 0 := by
            rw [List.count_eq_zero]
            intro hmem
            have := deliveriesFrom_index_lb rest (i + 1) (i, c, m) hmem
            omega
          rw [htail, Nat.add_zero]
          have hcs : cs.Nodup := hnd (m, cs) (List.mem_cons_self _ _)
          by_cases hm : c ∈ cs
          · rw [if_pos hm]; exact List.count_eq_one_of_mem hcs hm
          · rw [if_neg hm]; exact List.count_eq_zero.mpr hm
      | j' + 1 =>
          rw [List.getElem?_cons_succ] at h
          simp only [deliveriesFrom, List.count_append]
          rw [count_dispatchBlock_ne i (i + (j' + 1)) m p.1 c (by omega)]
          have := ih (i + 1) j' m cs c h (fun q hq => hnd q (List.mem_cons_of_mem p hq))
          have harith : i + 1 + j' = i + (j' + 1) := by omega
          rw [harith] at this
          rw [this, Nat.zero_add]

theorem deliveriesFrom_mem :
    ∀ (log : List (Message × List Conn)) (i : Nat) (e : Nat × Conn × Message),
      e ∈ deliveriesFrom i log →
      ∃ j cs, log[j]? = some (e.2.2, cs) ∧ e.2.1 ∈ cs ∧ e.1 = i + j := by
  intro log
  induction log with
  | nil => intro i e h; simp [deliveriesFrom] at h
  | cons p rest ih =>
      intro i e h
      simp only [deliveriesFrom, List.mem_append] at h
      rcases h with h | h
      · rcases List.mem_map.mp h with ⟨c, hc, rfl⟩
        exact ⟨0, p.2, by simp, hc, by simp⟩
      · rcases ih (i + 1) e h with ⟨j, cs, h1, h2, h3⟩
        exact ⟨j + 1, cs, by simpa using h1, h2, by omega⟩

theorem observedAt_append (c : Conn) :
    ∀ l₁ l₂ : List (Nat × Conn × Message),
      observedAt c (l₁ ++ l₂) = observedAt c l₁ ++ observedAt c l₂ := by
  intro l₁ l₂
  induction l₁ with
  | nil => rfl
  | cons e rest ih =>
      simp only [List.cons_append, observedAt, ih]
      by_cases h : e.2.1 = c <;> simp [h, ih]

theorem observedAt_mem (c : Conn) :
    ∀ (log : List (Nat × Conn × Message)) (x : Nat × Message), x ∈ observedAt c log →
      ∃ e, e ∈ log ∧ e.2.1 = c ∧ x = (e.1, e.2.2) := by
  intro log
  induction log with
  | nil => intro x h; simp [observedAt] at h
  | cons e rest ih =>
      intro x h
      simp only [observedAt] at h
      by_cases hc : e.2.1 = c
      · rw [if_pos hc] at h
        rcases List.mem_cons.mp h with h | h
        · exact ⟨e, List.mem_cons_self e rest, hc, h⟩
        · rcases ih x h with ⟨e', he', h1, h2⟩
          exact ⟨e', List.mem_cons_of_mem e he', h1, h2⟩
      · rw [if_neg hc] at h
        rcases ih x h with ⟨e', he', h1, h2⟩
        exact ⟨e', List.mem_cons_of_mem e he', h1, h2⟩

theorem observedAt_block_not_mem (c : Conn) (i : Nat) (m : Message) :
    ∀ cs : List Conn, c ∉ cs →
      observedAt c (cs.map (fun c' => (i, c', m))) = [] := by
  intro cs
  induction cs with
  | nil => intro _; rfl
  | cons c' cs' ih =>
      intro h
      have h1 : ¬ c' = c := fun hh => h (by rw [← hh]; exact List.mem_cons_self c' cs')
      simp only [List.map_cons, observedAt]
      simp only [h1, if_false]
      exact ih (fun hm => h (List.mem_cons_of_mem c' hm))

theorem observedAt_block (c : Conn) (i : Nat) (m : Message) :
    ∀ cs : List Conn, cs.Nodup →
      observedAt c (cs.map (fun c' => (i, c', m))) = if c ∈ cs then [(i, m)] else [] := by
  intro cs
  induction cs with
  | nil => intro _; rfl
  | cons c' cs' ih =>
      intro hnd
      rcases List.nodup_cons.mp hnd with ⟨hnm, hnd'⟩
      simp only [List.map_cons, observedAt]
      by_cases h : c' = c
      · subst h
        simp only [if_pos rfl, List.mem_cons, true_or, if_true,
          observedAt_block_not_mem c' i m cs' hnm]
      · have h2 : c ∈ c' :: cs' ↔ c ∈ cs' := by
          constructor
          · intro hm
            rcases List.mem_cons.mp hm with hh | hh
            · exact absurd hh.symm h
            · exact hh
          · exact List.mem_cons_of_mem c'
        simp only [h, if_false, ih hnd', h2]

theorem observedAt_pairwise (c : Conn) :
    ∀ (log : List (Message × List Conn)) (i : Nat), (∀ p ∈ log, (p.2).Nodup) →
      List.Pairwise (fun a b : Nat × Message => a.1 < b.1)
        (observedAt c (deliveriesFrom i log)) := by
  intro log
  induction log with
  | nil => intro i _; exact List.Pairwise.nil
  | cons p rest ih =>
      intro i hnd
      simp only [deliveriesFrom]
      rw [observedAt_append, List.pairwise_append]
      refine ⟨?_, ih (i + 1) (fun q hq => hnd q (List.mem_cons_of_mem p hq)), ?_⟩
      · rw [observedAt_block c i p.1 p.2 (hnd p (List.mem_cons_self p rest))]
        by_cases h : c ∈ p.2 <;> simp [h]
      · intro a ha b hb
        rw [observedAt_block c i p.1 p.2 (hnd p (List.mem_cons_self p rest))] at ha
        have ha1 : a.1 = i := by
          by_cases h : c ∈ p.2
          · rw [if_pos h] at ha
            rw [List.mem_singleton.mp ha]
          · rw [if_neg h] at ha; simp at ha
        rcases observedAt_mem c _ b hb with ⟨e, he, _, rfl⟩
        have hlb := deliveriesFrom_index_lb rest (i + 1) e he
        rw [ha1]
        exact Nat.lt_of_lt_of_le (Nat.lt_succ_self i) hlb

theorem hubInv_init : HubInv hubInit := by
  refine ⟨rfl, rfl, List.nodup_nil, ?_⟩
  intro p hp
  simp [hubInit] at hp

theorem hubInv_step {s s' : HubState} {a : HubAction} (h : HubStep s a s')
    (hinv : HubInv s) : HubInv s' := by
  obtain ⟨h1, h2, h3, h4⟩ := hinv
  cases h with
  | @join c u hc =>
      refine ⟨h1, ?_, ?_, h4⟩
      · show s.dispatchedLog.map Prod.fst ++ (s.queue ++ [joinedMsg u]) =
          s.enqueuedLog ++ [joinedMsg u]
        rw [← List.append_assoc, h2]
      · show ((s.clients ++ [(c, u)]).map Prod.fst).Nodup
        rw [List.map_append, List.nodup_append]
        exact ⟨h3, List.nodup_singleton c, by simpa using hc⟩
  | @leave c u =>
      refine ⟨h1, ?_, ?_, h4⟩
      · show s.dispatchedLog.map Prod.fst ++ (s.queue ++ [leftMsg u]) =
          s.enqueuedLog ++ [leftMsg u]
        rw [← List.append_assoc, h2]
      · exact h3.sublist ((List.filter_sublist s.clients).map Prod.fst)
  | @send m =>
      refine ⟨h1, ?_, h3, h4⟩
      show s.dispatchedLog.map Prod.fst ++ (s.queue ++ [m]) = s.enqueuedLog ++ [m]
      rw [← List.append_assoc, h2]
  | @dispatch wfail hq =>
      obtain ⟨m, rest, hq2⟩ : ∃ m rest, s.queue = m :: rest := by
        cases hqe : s.queue with
        | nil => exact absurd hqe hq
        | cons m rest => exact ⟨m, rest, rfl⟩
      simp only [broadcastStep, hq2]
      refine ⟨?_, ?_, ?_, ?_⟩
      · rw [deliveriesFrom_append_single, ← h1, Nat.zero_add, dispatchAttempts,
          List.map_map]
        rfl
      · rw [List.map_append]
        simp only [List.map_cons, List.map_nil]
        rw [List.append_assoc, List.singleton_append, ← hq2, h2]
      · exact h3.sublist ((List.filter_sublist s.clients).map Prod.fst)
      · intro p hp
        rcases List.mem_append.mp hp with hp | hp
        · exact h4 p hp
        · rw [List.mem_singleton.mp hp]
          exact h3

theorem hubInv_trace : ∀ {s : HubState} {as : List HubAction} {s' : HubState},
    HubTrace s as s' → HubInv s → HubInv s' := by
  intro s as s' htr
  induction htr with
  | nil => exact id
  | cons hstep _ ih => intro hinv; exact ih (hubInv_step hstep hinv)

theorem hubInv_reachable {as : List HubAction} {s : HubState}
    (h : HubTrace hubInit as s) : HubInv s :=
  hubInv_trace h hubInv_init

/-- C1: in any reachable hub state, every connection registered at the moment
an event was dispatched has exactly one logged delivery attempt of that event
(no skip, no double-visit) and no attempt is logged for an unregistered
connection or a different event at that index; every connection observes
events at strictly increasing dispatch indices (the shared relative order);
and the dispatch order extended by the pending queue is exactly the FIFO
enqueue order of the broadcast channel. -/
theorem c1_fifo_exactly_once (as : List HubAction) (s : HubState)
    (h : HubTrace hubInit as s) :
    (∀ (i : Nat) (m : Message) (cs : List Conn), s.dispatchedLog[i]? = some (m, cs) →
        ∀ c : Conn, List.count (i, c, m) s.deliveredLog = if c ∈ cs then 1 else 0) ∧
    (∀ e ∈ s.deliveredLog, ∃ cs, s.dispatchedLog[e.1]? = some (e.2.2, cs) ∧ e.2.1 ∈ cs) ∧
    (∀ c : Conn, List.Pairwise (fun a b : Nat × Message => a.1 < b.1)
        (observedAt c s.deliveredLog)) ∧
    s.dispatchedLog.map Prod.fst ++ s.queue = s.enqueuedLog := by
  obtain ⟨h1, h2, h3, h4⟩ := hubInv_reachable h
  refine ⟨?_, ?_, ?_, h2⟩
  · intro i m cs hi c
    rw [h1]
    have := count_deliveriesFrom s.dispatchedLog 0 i m cs c hi h4
    simpa using this
  · intro e he
    rw [h1] at he
    rcases deliveriesFrom_mem s.dispatchedLog 0 e he with ⟨j, cs, hj, hc, hij⟩
    refine ⟨cs, ?_, hc⟩
    rwa [show e.1 = j from by omega]
  · intro c
    rw [h1]
    exact observedAt_pairwise c s.dispatchedLog 0 h4

/-- Witness for C1: a join followed by one dispatch, from the initial hub. -/
theorem c1_fifo_exactly_once_witness :
    (∀ (i : Nat) (m : Message) (cs : List Conn),
        (broadcastStep (hubJoin hubInit 0 "alice") (fun _ => false)).dispatchedLog[i]? =
          some (m, cs) →
        ∀ c : Conn,
          List.count (i, c, m)
              (broadcastStep (hubJoin hubInit 0 "alice") (fun _ => false)).deliveredLog =
            if c ∈ cs then 1 else 0) ∧
    (∀ e ∈ (broadcastStep (hubJoin hubInit 0 "alice") (fun _ => false)).deliveredLog,
        ∃ cs, (broadcastStep (hubJoin hubInit 0 "alice")
            (fun _ => false)).dispatchedLog[e.1]? = some (e.2.2, cs) ∧ e.2.1 ∈ cs) ∧
    (∀ c : Conn, List.Pairwise (fun a b : Nat × Message => a.1 < b.1)
        (observedAt c
          (broadcastStep (hubJoin hubInit 0 "alice") (fun _ => false)).deliveredLog)) ∧
    (broadcastStep (hubJoin hubInit 0 "alice") (fun _ => false)).dispatchedLog.map Prod.fst ++
        (broadcastStep (hubJoin hubInit 0 "alice") (fun _ => false)).queue =
      (broadcastStep (hubJoin hubInit 0 "alice") (fun _ => false)).enqueuedLog :=
  c1_fifo_exactly_once
    [HubAction.join 0 "alice", HubAction.dispatch (fun _ => false)]
    (broadcastStep (hubJoin hubInit 0 "alice") (fun _ => false))
    (HubTrace.cons (HubStep.join (by decide))
      (HubTrace.cons (HubStep.dispatch (by decide)) HubTrace.nil))

theorem hub_no_rejoin (c : Conn) :
    ∀ {s0 : HubState} {as : List HubAction} {s1 : HubState}, HubTrace s0 as s1 →
      c ∉ s0.clients.map Prod.fst → (∀ u, HubAction.join c u ∉ as) →
      c ∉ s1.clients.map Prod.fst ∧
      ∀ e ∈ s1.deliveredLog, e ∈ s0.deliveredLog ∨ e.2.1 ≠ c := by
  intro s0 as s1 htr
  induction htr with
  | nil => intro hnc _; exact ⟨hnc, fun e he => Or.inl he⟩
  | @cons s s' s'' a as' hstep _ ih =>
      intro hnc hna
      have hna' : ∀ u, HubAction.join c u ∉ as' :=
        fun u hm => hna u (List.mem_cons_of_mem a hm)
      cases hstep with
      | @join c' u hc' =>
          have hcc : c' ≠ c := by
            intro hh
            subst hh
            exact hna u (List.mem_cons_self _ _)
          have hnc' : c ∉ (hubJoin s c' u).clients.map Prod.fst := by
            show c ∉ (s.clients ++ [(c', u)]).map Prod.fst
            rw [List.map_append, List.mem_append]
            rintro (hm | hm)
            · exact hnc hm
            · exact hcc (List.mem_singleton.mp hm).symm
          exact ih hnc' hna'
      | @leave c' u =>
          have hnc' : c ∉ (hubLeave s c' u).clients.map Prod.fst := by
            intro hm
            rcases List.mem_map.mp hm with ⟨p, hp, rfl⟩
            exact hnc (List.mem_map.mpr ⟨p, (List.mem_filter.mp hp).1, rfl⟩)
          exact ih hnc' hna'
      | @send m =>
          exact ih hnc hna'
      | @dispatch wfail hq =>
          obtain ⟨m, rest, hq2⟩ : ∃ m rest, s.queue = m :: rest := by
            cases hqe : s.queue with
            | nil => exact absurd hqe hq
            | cons m rest => exact ⟨m, rest, rfl⟩
          have hcl : (broadcastStep s wfail).clients =
              s.clients.filter (fun p => !(wfail p.1)) := by
            simp [broadcastStep, hq2]
          have hdel : (broadcastStep s wfail).deliveredLog =
              s.deliveredLog ++ dispatchAttempts s.dispatchedLog.length s.clients m := by
            simp [broadcastStep, hq2]
          have hnc' : c ∉ (broadcastStep s wfail).clients.map Prod.fst := by
            rw [hcl]
            intro hm
            rcases List.mem_map.mp hm with ⟨p, hp, rfl⟩
            exact hnc (List.mem_map.mpr ⟨p, (List.mem_filter.mp hp).1, rfl⟩)
          rcases ih hnc' hna' with ⟨hres1, hres2⟩
          refine ⟨hres1, fun e he => ?_⟩
          rcases hres2 e he with hin | hne
      -- an entry added by this dispatch goes to a registered handle, never c
          · rw [hdel] at hin
            rcases List.mem_append.mp hin with hin | hin
            · exact Or.inl hin
            · rcases List.mem_map.mp hin with ⟨p, hp, rfl⟩
              exact Or.inr fun hh => hnc (List.mem_map.mpr ⟨p, hp, hh⟩)
          · exact Or.inr hne

/-- C2: when the write of the dispatched event `m` to a registered connection
`c` fails, the dispatcher closes `c` and removes it from `clients` (under the
same lock embedded in the atomic step), every connection registered at
dispatch time — including the failing one — still has its delivery attempt of
`m` logged, the queue advances so subsequent events keep being dispatched
(another dispatch step is enabled whenever the queue is nonempty), and in any
continuation that never re-joins `c`, no later delivery attempt targets `c`. -/
theorem c2_failed_write_removed (s : HubState) (wfail : Conn → Bool) (c : Conn)
    (m : Message) (rest : List Message) (hq : s.queue = m :: rest)
    (hc : c ∈ s.clients.map Prod.fst) (hf : wfail c = true) :
    c ∈ (broadcastStep s wfail).closedLog ∧
    c ∉ (broadcastStep s wfail).clients.map Prod.fst ∧
    (∀ c' ∈ s.clients.map Prod.fst,
        (s.dispatchedLog.length, c', m) ∈ (broadcastStep s wfail).deliveredLog) ∧
    (broadcastStep s wfail).queue = rest ∧
    (∀ wfail' : Conn → Bool, rest ≠ [] →
        HubStep (broadcastStep s wfail) (HubAction.dispatch wfail')
          (broadcastStep (broadcastStep s wfail) wfail')) ∧
    (∀ (as : List HubAction) (s'' : HubState),
        HubTrace (broadcastStep s wfail) as s'' → (∀ u, HubAction.join c u ∉ as) →
        ∀ e ∈ s''.deliveredLog, e.2.1 = c → e ∈ (broadcastStep s wfail).deliveredLog) := by
  have hcl : (broadcastStep s wfail).clients =
      s.clients.filter (fun p => !(wfail p.1)) := by
    simp [broadcastStep, hq]
  have hdel : (broadcastStep s wfail).deliveredLog =
      s.deliveredLog ++ dispatchAttempts s.dispatchedLog.length s.clients m := by
    simp [broadcastStep, hq]
  have hclos : (broadcastStep s wfail).closedLog =
      s.closedLog ++ (s.clients.filter (fun p => wfail p.1)).map Prod.fst := by
    simp [broadcastStep, hq]
  have hque : (broadcastStep s wfail).queue = rest := by
    simp [broadcastStep, hq]
  have hnc' : c ∉ (broadcastStep s wfail).clients.map Prod.fst := by
    rw [hcl]
    intro hm
    rcases List.mem_map.mp hm with ⟨p, hp, rfl⟩
    have := (List.mem_filter.mp hp).2
    rw [hf] at this
    simp at this
  refine ⟨?_, hnc', ?_, hque, ?_, ?_⟩
  · rw [hclos, List.mem_append]
    right
    rcases List.mem_map.mp hc with ⟨p, hp, rfl⟩
    exact List.mem_map.mpr ⟨p, List.mem_filter.mpr ⟨hp, by rw [hf]⟩, rfl⟩
  · intro c' hc'
    rw [hdel, List.mem_append]
    right
    rcases List.mem_map.mp hc' with ⟨p, hp, rfl⟩
    exact List.mem_map.mpr ⟨p, hp, rfl⟩
  · intro wfail' hrest
    exact HubStep.dispatch (by rw [hque]; exact hrest)
  · intro as s'' htr hna e he hec
    rcases (hub_no_rejoin c htr hnc' hna).2 e he with hin | hne
    · exact hin
    · exact absurd hec hne

/-- Witness for C2: two registered connections, the write to handle 0 fails. -/
theorem c2_failed_write_removed_witness :
    0 ∈ (broadcastStep
        ⟨[(0, "bob"), (1, "carol")], [⟨"message", "bob", "hi"⟩],
          [⟨"message", "bob", "hi"⟩], [], [], []⟩ (fun n => n == 0)).closedLog ∧
    0 ∉ (broadcastStep
        ⟨[(0, "bob"), (1, "carol")], [⟨"message", "bob", "hi"⟩],
          [⟨"message", "bob", "hi"⟩], [], [], []⟩ (fun n => n == 0)).clients.map Prod.fst ∧
    (∀ c' ∈ (⟨[(0, "bob"), (1, "carol")], [⟨"message", "bob", "hi"⟩],
          [⟨"message", "bob", "hi"⟩], [], [], []⟩ : HubState).clients.map Prod.fst,
        ((⟨[(0, "bob"), (1, "carol")], [⟨"message", "bob", "hi"⟩],
            [⟨"message", "bob", "hi"⟩], [], [], []⟩ : HubState).dispatchedLog.length, c',
          (⟨"message", "bob", "hi"⟩ : Message)) ∈
          (broadcastStep
            ⟨[(0, "bob"), (1, "carol")], [⟨"message", "bob", "hi"⟩],
              [⟨"message", "bob", "hi"⟩], [], [], []⟩ (fun n => n == 0)).deliveredLog) ∧
    (broadcastStep
        ⟨[(0, "bob"), (1, "carol")], [⟨"message", "bob", "hi"⟩],
          [⟨"message", "bob", "hi"⟩], [], [], []⟩ (fun n => n == 0)).queue = [] ∧
    (∀ wfail' : Conn → Bool, ([] : List Message) ≠ [] →
        HubStep (broadcastStep
            ⟨[(0, "bob"), (1, "carol")], [⟨"message", "bob", "hi"⟩],
              [⟨"message", "bob", "hi"⟩], [], [], []⟩ (fun n => n == 0))
          (HubAction.dispatch wfail')
          (broadcastStep (broadcastStep
              ⟨[(0, "bob"), (1, "carol")], [⟨"message", "bob", "hi"⟩],
                [⟨"message", "bob", "hi"⟩], [], [], []⟩ (fun n => n == 0)) wfail')) ∧
    (∀ (as : List HubAction) (s'' : HubState),
        HubTrace (broadcastStep
            ⟨[(0, "bob"), (1, "carol")], [⟨"message", "bob", "hi"⟩],
              [⟨"message", "bob", "hi"⟩], [], [], []⟩ (fun n => n == 0)) as s'' →
        (∀ u, HubAction.join 0 u ∉ as) →
        ∀ e ∈ s''.deliveredLog, e.2.1 = 0 →
          e ∈ (broadcastStep
              ⟨[(0, "bob"), (1, "carol")], [⟨"message", "bob", "hi"⟩],
                [⟨"message", "bob", "hi"⟩], [], [], []⟩ (fun n => n == 0)).deliveredLog) :=
  c2_failed_write_removed
    ⟨[(0, "bob"), (1, "carol")], [⟨"message", "bob", "hi"⟩],
      [⟨"message", "bob", "hi"⟩], [], [], []⟩
    (fun n => n == 0) 0 ⟨"message", "bob", "hi"⟩ [] rfl (by decide) rfl

end Chatroom
